import Mathlib

/-!
Verification of the NoisePy pipeline-orchestration layer
(`S0A_download_ASDF_MPI.py`, `noisepy/seis/main.py`) against its
natural-language specification.

The Python code is shallowly embedded: Python ints become `Int`/`Nat`,
Python float arithmetic is modelled exactly over `ℚ`, fallible paths
return `Except`, and the MPI/ASDF side effects are made explicit
(fetch tallies, persisted-tag lists, a process-exit flag).
-/

namespace NoisePy

/-! ## Memory Budget Checker (`S0A_download_ASDF_MPI.py`, lines 175-181)

```
nsec_chunk = inc_hours/24*86400
nseg_chunk = int(np.floor((nsec_chunk-cc_len)/step))+1
npts_chunk = int(nseg_chunk*cc_len*samp_freq)
memory_size = nsta*npts_chunk*4/1024**3
if memory_size > MAX_MEM:
    raise ValueError(message naming memory_size and MAX_MEM)
```
Python float arithmetic is modelled exactly over `ℚ`. -/

/-- Chunk length in seconds: nsec_chunk = inc_hours/24*86400. -/
def nsec_chunk (inc_hours : ℤ) : ℚ := (inc_hours : ℚ) / 24 * 86400

/-- Estimated window count for one chunk:
nseg_chunk = int(np.floor((nsec_chunk-cc_len)/step))+1. -/
def nseg_chunk (inc_hours cc_len step : ℤ) : ℤ :=
  ⌊(nsec_chunk inc_hours - (cc_len : ℚ)) / (step : ℚ)⌋ + 1

/-- Estimated sample count for one chunk:
npts_chunk = int(nseg_chunk*cc_len*samp_freq)
(the product of ints is an int, so the int conversion is the identity). -/
def npts_chunk (inc_hours cc_len step samp_freq : ℤ) : ℤ :=
  nseg_chunk inc_hours cc_len step * cc_len * samp_freq

/-- Estimated memory in GB, 4 bytes per float32 sample:
memory_size = nsta*npts_chunk*4/1024**3. -/
def memory_size (nsta inc_hours cc_len step samp_freq : ℤ) : ℚ :=
  (nsta : ℚ) * (npts_chunk inc_hours cc_len step samp_freq : ℚ) * 4 / 1024 ^ 3

/-- Failure modes of the pre-flight checks of the download stage. -/
inductive DownloadError
  | resourceExceeded (estimate ceiling : ℚ)
  deriving DecidableEq, Repr

/-- The memory budget check: `if memory_size > MAX_MEM: raise ValueError(...)`,
reporting the estimate and the ceiling. -/
def memoryCheck (nsta inc_hours cc_len step samp_freq : ℤ) (MAX_MEM : ℚ) :
    Except DownloadError Unit :=
  if memory_size nsta inc_hours cc_len step samp_freq > MAX_MEM then
    .error (.resourceExceeded (memory_size nsta inc_hours cc_len step samp_freq) MAX_MEM)
  else
    .ok ()

/-- Formula for estimated bytes as the claim states it: windows, points, then
`station_count * points * 4` with `chunk_seconds = inc_hours * 3600`. -/
def claimEstimatedBytes (nsta inc_hours cc_len step samp_freq : ℤ) : ℚ :=
  (nsta : ℚ) *
    (((⌊((inc_hours * 3600 - cc_len : ℤ) : ℚ) / (step : ℚ)⌋ + 1) * cc_len * samp_freq : ℤ) : ℚ)
    * 4

/-! ## CLI dispatch (`noisepy/seis/main.py`, `main`, lines 70-104) and the
tail of `download` (`S0A_download_ASDF_MPI.py`, lines 311-313):

```
comm.barrier()
if rank == 0:
    sys.exit()
```
so on MPI rank 0 the process terminates inside `download`. -/

/-- CLI subcommands (`Step` enum in `main.py`). -/
inductive CliStep
  | download
  | cross_correlate
  | stack
  | all
  deriving DecidableEq, Repr

/-- Pipeline stages a process can execute. -/
inductive Stage
  | download
  | cross_correlate
  | stack
  deriving DecidableEq, Repr

/-- The stages the process actually executes for a CLI step, given the
MPI rank of this process. The `ALL` branch of `main` calls `download`, then
`run_cross_correlation`, then `stack`; but `download` ends with
`if rank == 0: sys.exit()`, which terminates the process on rank 0 before
the later stages are reached. -/
def stagesRun (s : CliStep) (rank : ℕ) : List Stage :=
  match s with
  | .download => [.download]
  | .cross_correlate => [.cross_correlate]
  | .stack => [.stack]
  | .all =>
    if rank = 0 then [.download]
    else [.download, .cross_correlate, .stack]

/-! ## Metadata record and configuration loader
(`S0A_download_ASDF_MPI.py` lines 95-110, 173, 211-212;
`main.py`, `initialize_fft_params`, lines 38-50)

The download stage writes `str(prepro_para)` (a Python dict of literals) to
`download_info.txt`; `initialize_fft_params` reads it back with `eval`.
`str`/`eval` transport such a dict faithfully, so the record is modelled as
an association list of keys to literal values. -/

/-- A Python literal value stored in the metadata dict. -/
inductive MetaValue
  | int (i : ℤ)
  | rat (q : ℚ)
  | str (s : String)
  deriving DecidableEq, Repr

/-- The textual metadata record: a dict of string keys to literal values. -/
abbrev MetaDict := List (String × MetaValue)

/-- Dict lookup; `none` models a Python `KeyError`. -/
def metaLookup (k : String) : MetaDict → Option MetaValue
  | [] => none
  | (k2, v) :: rest => if k2 = k then some v else metaLookup k rest

/-- The effective acquisition parameters that `download` assembles into
`prepro_para` (module constants plus per-run values). -/
structure AcqParams where
  rm_resp : String
  respdir : String
  freqmin : ℚ
  freqmax : ℚ
  samp_freq : ℤ
  start_date : String
  end_date : String
  inc_hours : ℤ
  cc_len : ℤ
  step : ℤ
  MAX_MEM : ℚ
  lamin : ℚ
  lamax : ℚ
  lomin : ℚ
  lomax : ℚ
  ncomp : ℤ
  nsta : ℤ

/-- The `prepro_para` dict written to `download_info.txt` (source lines
95-110; the nsta entry is added at line 173 on the
`down_list = False` path taken by this configuration). -/
def prepro_para (p : AcqParams) : MetaDict :=
  [ ("rm_resp", .str p.rm_resp),
    ("respdir", .str p.respdir),
    ("freqmin", .rat p.freqmin),
    ("freqmax", .rat p.freqmax),
    ("samp_freq", .int p.samp_freq),
    ("start_date", .str p.start_date),
    ("end_date", .str p.end_date),
    ("inc_hours", .int p.inc_hours),
    ("cc_len", .int p.cc_len),
    ("step", .int p.step),
    ("MAX_MEM", .rat p.MAX_MEM),
    ("lamin", .rat p.lamin),
    ("lamax", .rat p.lamax),
    ("lomin", .rat p.lomin),
    ("lomax", .rat p.lomax),
    ("ncomp", .int p.ncomp),
    ("nsta", .int p.nsta) ]

/-- The fields of `ConfigParameters` touched by `initialize_fft_params`,
plus one representative untouched field (`freq_norm`) that keeps its
default. (`datatypes.ConfigParameters` itself is an external collaborator;
only the assignments visible in `main.py` are modelled.) -/
structure ConfigParameters where
  samp_freq : MetaValue
  freqmin : MetaValue
  freqmax : MetaValue
  start_date : MetaValue
  end_date : MetaValue
  inc_hours : MetaValue
  ncomp : MetaValue
  freq_norm : String
  deriving DecidableEq, Repr

/-- Failure mode of the configuration loader: a missing dict key. -/
inductive LoadError
  | keyError (k : String)
  deriving DecidableEq, Repr

/-- `initialize_fft_params`: start from a freshly constructed default
`ConfigParameters`; when `download_info.txt` exists (`downloadInfo = some
info`), overwrite the seven listed fields from the dict; otherwise return
the defaults untouched. -/
def initialize_fft_params (defaults : ConfigParameters)
    (downloadInfo : Option MetaDict) : Except LoadError ConfigParameters :=
  match downloadInfo with
  | none => .ok defaults
  | some info => do
    let get := fun (k : String) =>
      match metaLookup k info with
      | some v => Except.ok v
      | none => Except.error (LoadError.keyError k)
    let sf ← get "samp_freq"
    let fmin ← get "freqmin"
    let fmax ← get "freqmax"
    let sd ← get "start_date"
    let ed ← get "end_date"
    let ih ← get "inc_hours"
    let nc ← get "ncomp"
    .ok { defaults with
            samp_freq := sf, freqmin := fmin, freqmax := fmax,
            start_date := sd, end_date := ed, inc_hours := ih, ncomp := nc }

/-! ## Raw-store factory (`main.py`, `create_raw_store`, lines 53-67) -/

/-- Whether filename `f` matches the glob pattern `*`++`ext`: the pattern
suffix must be a suffix of the filename (character-wise). -/
def matchesExt (f ext : String) : Bool :=
  ext.data.isSuffixOf f.data

/-- Number of files in the directory matching `*`++`ext` (the `glob` count). -/
def countExt (files : List String) (ext : String) : ℕ :=
  (files.filter (fun f => matchesExt f ext)).length

/-- What `create_raw_store` inspects about the raw-data directory. -/
structure RawDirContents where
  files : List String
  stationFilePresent : Bool

/-- Channel catalog chosen for the miniSEED/SAC store. -/
inductive ChannelCatalogKind
  | csv
  | fdsn
  deriving DecidableEq, Repr

/-- Which raw-store implementation the factory returns. -/
inductive RawStoreKind
  | asdf
  | scedc (catalog : ChannelCatalogKind)
  deriving DecidableEq, Repr

/-- Failure mode of the factory: the `assert` at line 61 fires. -/
inductive FactoryError
  | assertionError
  deriving DecidableEq, Repr

/-- `create_raw_store`: ASDF store if any `.h5` file is present; otherwise
assert that a `.ms` or `.sac` file exists and return the SCEDC store with a
CSV catalog when the station file is present, else an FDSN catalog. -/
def create_raw_store (d : RawDirContents) : Except FactoryError RawStoreKind :=
  if 0 < countExt d.files ".h5" then
    .ok .asdf
  else if 0 < countExt d.files ".ms" ∨ 0 < countExt d.files ".sac" then
    .ok (.scedc (if d.stationFilePresent then .csv else .fdsn))
  else
    .error .assertionError

/-! ## Static round-robin work partitioning
(`S0A_download_ASDF_MPI.py`, lines 215-232)

```
splits = len(all_chunk)-1
...
for ick in range(rank,splits,size):
```
`range(start, stop, step)` with positive `step` is embedded as `pyRange`. -/

/-- Python `range(cur, stop, step)` for positive `step`, with fuel (`stop`
bounds the number of elements produced). -/
def pyRangeAux : ℕ → ℕ → ℕ → ℕ → List ℕ
  | 0, _, _, _ => []
  | fuel + 1, cur, stop, step =>
    if cur < stop then cur :: pyRangeAux fuel (cur + step) stop step else []

/-- Python `range(start, stop, step)` for positive `step`. -/
def pyRange (start stop step : ℕ) : List ℕ :=
  pyRangeAux stop start stop step

/-- The chunk indices processed by the worker of rank `rank` when the
broadcast chunk list has length `L`: `range(rank, L-1, size)`. -/
def assignedChunks (rank L size : ℕ) : List ℕ :=
  pyRange rank (L - 1) size

/-! ## Acquisition Orchestrator, one chunk
(`S0A_download_ASDF_MPI.py`, lines 236-306)

Per station/channel row `ista` the loop body is:
```
if num_records[ista] == ncomp: continue
try: sta_inv = client.get_stations(...)
except Exception as e: print(e);continue
try: ds.add_stationxml(sta_inv)
except Exception: pass
try: tr = client.get_waveforms(...)
except Exception as e: print error; continue
tr = noise_module.preprocess_raw(tr,sta_inv,prepro_para,date_info)
if len(tr):
    ...
    new_tags = chan[ista].lower() joined to tlocation.lower()
    ds.add_waveforms(tr,tag=new_tags)
print(ds,new_tags)
```
`new_tags` is a function-local variable assigned only inside `if len(tr):`,
so the final `print` raises `UnboundLocalError` whenever it runs before any
assignment to `new_tags`. The remote collaborators are embedded by
recording, per row, whether each remote call would succeed and what the
preprocessing collaborator would return. -/

/-- One station/channel row of the roster, together with the scan result
(`num_records`) and the behaviour of the remote/preprocessing collaborators
for this chunk. `preprocessed` is the trace list `preprocess_raw` returns
when the fetch succeeds (possibly empty). -/
structure AcqChannel where
  chan : String
  location : String
  numRecords : ℕ
  invOk : Bool
  wfOk : Bool
  preprocessed : List ℕ
  deriving DecidableEq, Repr

/-- Python `str.lower`, modelled character-wise. -/
def strToLower (s : String) : String :=
  ⟨s.data.map Char.toLower⟩

/-- The waveform tag `new_tags` built at lines 298-302:
the format string joins chan[ista].lower() and tlocation.lower() with an
underscore, where tlocation is 00 when the location code is the star
wildcard. -/
def newTag (chan location : String) : String :=
  strToLower chan ++ "_" ++ (if location = "*" then "00" else strToLower location)

/-- What the loop body does for one row. -/
inductive ChanOutcome
  | skippedComplete
  | invFailed
  | fetchFailed
  | emptyResult
  | persisted (tag : String)
  deriving DecidableEq, Repr

/-- The outcome of the loop body for one row (before the final `print`). -/
def chanOutcome (ncomp : ℕ) (c : AcqChannel) : ChanOutcome :=
  if c.numRecords = ncomp then .skippedComplete
  else if !c.invOk then .invFailed
  else if !c.wfOk then .fetchFailed
  else if c.preprocessed.isEmpty then .emptyResult
  else .persisted (newTag c.chan c.location)

/-- Remote calls performed for one row: `get_stations` counts one,
`get_waveforms` a second. -/
def remoteCalls (o : ChanOutcome) : ℕ :=
  match o with
  | .skippedComplete => 0
  | .invFailed => 1
  | _ => 2

/-- Result of processing one chunk: total remote calls made, the waveform
tags persisted (in roster order), and whether the loop died with an
uncaught `UnboundLocalError` from `print(ds,new_tags)`. -/
structure ChunkResult where
  remoteFetches : ℕ
  persisted : List String
  fatal : Bool
  deriving DecidableEq, Repr

/-- The per-chunk station loop. `lastTag` is the current binding of the
function-local `new_tags` (`none` when not yet assigned); the final
`print(ds,new_tags)` of a non-skipped, non-continued row reads it and
raises when it is unbound, aborting the loop. -/
def processChunkAux (ncomp : ℕ) : Option String → List AcqChannel → ChunkResult
  | _, [] => ⟨0, [], false⟩
  | lastTag, c :: rest =>
    match chanOutcome ncomp c with
    | .skippedComplete =>
      processChunkAux ncomp lastTag rest
    | .invFailed =>
      let r := processChunkAux ncomp lastTag rest
      ⟨1 + r.remoteFetches, r.persisted, r.fatal⟩
    | .fetchFailed =>
      let r := processChunkAux ncomp lastTag rest
      ⟨2 + r.remoteFetches, r.persisted, r.fatal⟩
    | .emptyResult =>
      match lastTag with
      | none => ⟨2, [], true⟩
      | some t =>
        let r := processChunkAux ncomp (some t) rest
        ⟨2 + r.remoteFetches, r.persisted, r.fatal⟩
    | .persisted tag =>
      let r := processChunkAux ncomp (some tag) rest
      ⟨2 + r.remoteFetches, tag :: r.persisted, r.fatal⟩

/-- Processing one chunk at the start of a run (`new_tags` unbound). -/
def processChunk (ncomp : ℕ) (stations : List AcqChannel) : ChunkResult :=
  processChunkAux ncomp none stations

/-- A roster row whose chunk data is not yet complete and whose remote
fetches and preprocessing all succeed with non-empty data. -/
def goodChannel (ncomp : ℕ) (c : AcqChannel) : Prop :=
  c.numRecords ≠ ncomp ∧ c.invOk = true ∧ c.wfOk = true ∧ c.preprocessed ≠ []

instance (ncomp : ℕ) (c : AcqChannel) : Decidable (goodChannel ncomp c) := by
  unfold goodChannel
  infer_instance

/-! ## Time-Chunk Planner -/

/-- Planner failure (spec taxonomy `ConfigError`). -/
inductive ConfigError
  | invalidRange
  deriving DecidableEq, Repr

/-- Modelled from the spec: `noise_module.get_event_list` (the Time-Chunk
Planner) is not among the source files of this repository; only its caller at
line 215 of `S0A_download_ASDF_MPI.py` is. Spec section 4.1: output is an
ordered list of chunk boundary timestamps of length
`floor((end-start)/increment) + 1`, strictly increasing, failing with
`ConfigError` if increment ≤ 0 or start ≥ end. Timestamps are modelled as
rationals; boundary `i` is `start + i * increment`. -/
def chunkBoundaries (start inc : ℚ) (n : ℕ) : List ℚ :=
  (List.range n).map (fun i : ℕ => start + (i : ℚ) * inc)

def get_event_list (start endT inc : ℚ) : Except ConfigError (List ℚ) :=
  if inc ≤ 0 ∨ endT ≤ start then
    .error .invalidRange
  else
    .ok (chunkBoundaries start inc (⌊(endT - start) / inc⌋.toNat + 1))

/-! ## Helper lemmas -/

theorem countExt_pos_iff (files : List String) (ext : String) :
    0 < countExt files ext ↔ ∃ f ∈ files, matchesExt f ext := by
  unfold countExt
  rw [List.length_pos]
  constructor
  · intro h
    obtain ⟨x, hx⟩ := List.exists_mem_of_ne_nil _ h
    exact ⟨x, (List.mem_filter.mp hx).1, by simpa using (List.mem_filter.mp hx).2⟩
  · rintro ⟨f, hf, he⟩ hnil
    have hmem : f ∈ files.filter (fun f => matchesExt f ext) :=
      List.mem_filter.mpr ⟨hf, by simpa using he⟩
    simp [hnil] at hmem

/-! ## Claim theorems -/

/-- C2: the estimate of the Memory Budget Checker agrees with the claimed
formula (windows = floor((chunk_seconds - cc_len)/step) + 1, points =
windows * cc_len * sample_rate, bytes = station_count * points * 4), it
returns without error exactly when the estimated bytes are at most the
ceiling (`MAX_MEM` gigabytes, i.e. `MAX_MEM * 1024^3` bytes), and it fails
with `ResourceExceeded` naming the numeric estimate and the ceiling exactly
when the estimated bytes exceed the ceiling. -/
theorem memory_budget_checker_correct
    (nsta inc_hours cc_len step samp_freq : ℤ) (MAX_MEM : ℚ) :
    claimEstimatedBytes nsta inc_hours cc_len step samp_freq
        = memory_size nsta inc_hours cc_len step samp_freq * 1024 ^ 3
    ∧ (memoryCheck nsta inc_hours cc_len step samp_freq MAX_MEM = .ok () ↔
        claimEstimatedBytes nsta inc_hours cc_len step samp_freq ≤ MAX_MEM * 1024 ^ 3)
    ∧ (memoryCheck nsta inc_hours cc_len step samp_freq MAX_MEM =
          .error (.resourceExceeded (memory_size nsta inc_hours cc_len step samp_freq) MAX_MEM) ↔
        MAX_MEM * 1024 ^ 3 < claimEstimatedBytes nsta inc_hours cc_len step samp_freq) := by
  have hfloor : ((inc_hours * 3600 - cc_len : ℤ) : ℚ) / (step : ℚ)
      = (nsec_chunk inc_hours - (cc_len : ℚ)) / (step : ℚ) := by
    unfold nsec_chunk
    push_cast
    ring
  have hb : claimEstimatedBytes nsta inc_hours cc_len step samp_freq
      = memory_size nsta inc_hours cc_len step samp_freq * 1024 ^ 3 := by
    unfold claimEstimatedBytes memory_size npts_chunk nseg_chunk
    rw [hfloor]
    push_cast
    ring
  have hpos : (0 : ℚ) < 1024 ^ 3 := by norm_num
  refine ⟨hb, ?_, ?_⟩
  · rw [hb, mul_le_mul_right hpos]
    unfold memoryCheck
    split_ifs with h
    · simp only [reduceCtorEq, false_iff, not_le]
      exact h
    · simp only [true_iff]
      exact le_of_not_lt h
  · rw [hb, mul_lt_mul_right hpos]
    unfold memoryCheck
    split_ifs with h
    · simp only [Except.error.injEq, true_iff]
      exact h
    · simp only [reduceCtorEq, false_iff, not_lt]
      exact le_of_not_lt h

/-- C3: the claim that the `all` subcommand runs download, then
cross-correlation, then stacking in one invocation fails on the code: in a
single-process invocation (MPI rank 0), `download` ends with
`if rank == 0: sys.exit()`, so the process terminates after the download
stage and the cross-correlation and stacking stages are never executed. -/
theorem all_subcommand_terminates_after_download :
    stagesRun CliStep.all 0 = [Stage.download]
    ∧ stagesRun CliStep.all 0 ≠ [Stage.download, Stage.cross_correlate, Stage.stack]
    ∧ Stage.cross_correlate ∉ stagesRun CliStep.all 0
    ∧ Stage.stack ∉ stagesRun CliStep.all 0 := by
  decide

/-- C8: the seven values `download` writes into the metadata record
(`samp_freq`, `freqmin`, `freqmax`, `start_date`, `end_date`, `inc_hours`,
`ncomp`) are recovered unchanged by `initialize_fft_params`, which returns
the default configuration with exactly those fields overwritten by the
written effective acquisition values. -/
theorem metadata_round_trip (p : AcqParams) (defaults : ConfigParameters) :
    initialize_fft_params defaults (some (prepro_para p)) =
      .ok { defaults with
              samp_freq := .int p.samp_freq,
              freqmin := .rat p.freqmin,
              freqmax := .rat p.freqmax,
              start_date := .str p.start_date,
              end_date := .str p.end_date,
              inc_hours := .int p.inc_hours,
              ncomp := .int p.ncomp } := by
  rfl

/-- C9: the raw-store factory returns the ASDF store if and only if the
directory holds a `.h5` file; otherwise, when a `.ms` or `.sac` file is
present it returns the SCEDC miniSEED/SAC store with a CSV catalog exactly
when the station file is present (FDSN otherwise); with none of the three
extensions present it fails (assertion error). -/
theorem create_raw_store_selection (d : RawDirContents) :
    (create_raw_store d = .ok .asdf ↔ ∃ f ∈ d.files, matchesExt f ".h5")
    ∧ ((¬ ∃ f ∈ d.files, matchesExt f ".h5") →
        (∃ f ∈ d.files, matchesExt f ".ms" ∨ matchesExt f ".sac") →
        create_raw_store d =
          .ok (.scedc (if d.stationFilePresent then .csv else .fdsn)))
    ∧ ((¬ ∃ f ∈ d.files, matchesExt f ".h5" ∨ matchesExt f ".ms" ∨ matchesExt f ".sac") →
        create_raw_store d = .error .assertionError) := by
  refine ⟨?_, ?_, ?_⟩
  · unfold create_raw_store
    split_ifs with h1 h2 h3
    · exact iff_of_true rfl ((countExt_pos_iff d.files ".h5").mp h1)
    · exact iff_of_false (by simp) (fun hex => h1 ((countExt_pos_iff d.files ".h5").mpr hex))
    · exact iff_of_false (by simp) (fun hex => h1 ((countExt_pos_iff d.files ".h5").mpr hex))
    · exact iff_of_false not_false (fun hex => h1 ((countExt_pos_iff d.files ".h5").mpr hex))
  · intro h5 hex
    unfold create_raw_store
    have h1 : ¬ 0 < countExt d.files ".h5" := fun hc => h5 ((countExt_pos_iff d.files ".h5").mp hc)
    have h2 : 0 < countExt d.files ".ms" ∨ 0 < countExt d.files ".sac" := by
      obtain ⟨f, hf, he | he⟩ := hex
      · exact Or.inl ((countExt_pos_iff d.files ".ms").mpr ⟨f, hf, he⟩)
      · exact Or.inr ((countExt_pos_iff d.files ".sac").mpr ⟨f, hf, he⟩)
    rw [if_neg h1, if_pos h2]
  · intro hnone
    unfold create_raw_store
    have h1 : ¬ 0 < countExt d.files ".h5" := by
      intro hc
      obtain ⟨f, hf, he⟩ := (countExt_pos_iff d.files ".h5").mp hc
      exact hnone ⟨f, hf, Or.inl he⟩
    have h2 : ¬ (0 < countExt d.files ".ms" ∨ 0 < countExt d.files ".sac") := by
      rintro (hc | hc)
      · obtain ⟨f, hf, he⟩ := (countExt_pos_iff d.files ".ms").mp hc
        exact hnone ⟨f, hf, Or.inr (Or.inl he)⟩
      · obtain ⟨f, hf, he⟩ := (countExt_pos_iff d.files ".sac").mp hc
        exact hnone ⟨f, hf, Or.inr (Or.inr he)⟩
    rw [if_neg h1, if_neg h2]

/-- Witness for C9 at a concrete directory: one `.ms` file and a station
file present select the SCEDC store with the CSV catalog. -/
theorem create_raw_store_selection_witness :
    create_raw_store ⟨["CIABC.ms"], true⟩ = .ok (.scedc .csv) := by
  have h := (create_raw_store_selection ⟨["CIABC.ms"], true⟩).2.1 (by decide) (by decide)
  simpa using h

/-- C10: when the metadata record `download_info.txt` is absent, the
configuration loader does not fail and returns the freshly constructed
default `ConfigParameters` unchanged. -/
theorem missing_metadata_yields_defaults (defaults : ConfigParameters) :
    initialize_fft_params defaults none = .ok defaults := by
  rfl

theorem pyRangeAux_mem (step : ℕ) (hstep : 0 < step) :
    ∀ (fuel cur stop i : ℕ), stop - cur ≤ fuel →
      (i ∈ pyRangeAux fuel cur stop step ↔ ∃ k, i = cur + k * step ∧ i < stop) := by
  intro fuel
  induction fuel with
  | zero =>
    intro cur stop i hfuel
    simp only [pyRangeAux, List.not_mem_nil, false_iff]
    rintro ⟨k, hk, hi⟩
    have hle : cur ≤ i := hk ▸ Nat.le_add_right _ _
    omega
  | succ f ih =>
    intro cur stop i hfuel
    by_cases h : cur < stop
    · simp only [pyRangeAux, if_pos h, List.mem_cons]
      rw [ih (cur + step) stop i (by omega)]
      constructor
      · rintro (rfl | ⟨k, hk, hi⟩)
        · exact ⟨0, by simp, h⟩
        · refine ⟨k + 1, ?_, hi⟩
          have hm : (k + 1) * step = k * step + step := by ring
          rw [hm]
          omega
      · rintro ⟨k, hk, hi⟩
        cases k with
        | zero =>
          left
          simpa using hk
        | succ k2 =>
          right
          refine ⟨k2, ?_, hi⟩
          have hm : (k2 + 1) * step = k2 * step + step := by ring
          rw [hm] at hk
          omega
    · simp only [pyRangeAux, if_neg h, List.not_mem_nil, false_iff]
      rintro ⟨k, hk, hi⟩
      have hle : cur ≤ i := hk ▸ Nat.le_add_right _ _
      omega

theorem pyRangeAux_lower (step : ℕ) :
    ∀ (fuel cur stop i : ℕ), i ∈ pyRangeAux fuel cur stop step → cur ≤ i := by
  intro fuel
  induction fuel with
  | zero =>
    intro cur stop i h
    simp [pyRangeAux] at h
  | succ f ih =>
    intro cur stop i h
    by_cases hc : cur < stop
    · rw [pyRangeAux, if_pos hc] at h
      rcases List.mem_cons.mp h with rfl | h2
      · exact le_refl _
      · exact le_trans (Nat.le_add_right cur step) (ih _ _ _ h2)
    · rw [pyRangeAux, if_neg hc] at h
      simp at h

theorem pyRangeAux_sorted (step : ℕ) (hstep : 0 < step) :
    ∀ (fuel cur stop : ℕ),
      (pyRangeAux fuel cur stop step).Sorted (fun a b => a < b) := by
  intro fuel
  induction fuel with
  | zero =>
    intro cur stop
    simp only [pyRangeAux]
    exact List.sorted_nil
  | succ f ih =>
    intro cur stop
    by_cases hc : cur < stop
    · rw [pyRangeAux, if_pos hc, List.sorted_cons]
      refine ⟨fun b hb => ?_, ih _ _⟩
      have := pyRangeAux_lower step f (cur + step) stop b hb
      omega
    · rw [pyRangeAux, if_neg hc]
      exact List.sorted_nil

theorem mem_assignedChunks (rank L W i : ℕ) (hW : 0 < W) (hrank : rank < W) :
    i ∈ assignedChunks rank L W ↔ i < L - 1 ∧ i % W = rank := by
  unfold assignedChunks pyRange
  rw [pyRangeAux_mem W hW (L - 1) rank (L - 1) i (by omega)]
  constructor
  · rintro ⟨k, rfl, hi⟩
    refine ⟨hi, ?_⟩
    rw [Nat.add_mul_mod_self_right]
    exact Nat.mod_eq_of_lt hrank
  · rintro ⟨hi, hmod⟩
    refine ⟨i / W, ?_, hi⟩
    rw [← hmod, Nat.mod_add_div']

/-- C5: with `W` workers and a broadcast chunk list of length `L` (giving
`L-1` chunks), the worker of rank `r` processes exactly the chunk indices
`i < L-1` with `i % W = r`, in increasing order, and every chunk index is
processed by exactly one worker (the worker whose rank is `i % W`). -/
theorem round_robin_partition (L W rank : ℕ) (hW : 0 < W) (hrank : rank < W) :
    (assignedChunks rank L W).Sorted (fun a b => a < b)
    ∧ (∀ i, i ∈ assignedChunks rank L W ↔ i < L - 1 ∧ i % W = rank)
    ∧ (∀ i, i < L - 1 → ∀ r, r < W → (i ∈ assignedChunks r L W ↔ r = i % W)) := by
  refine ⟨pyRangeAux_sorted W hW (L - 1) rank (L - 1),
          fun i => mem_assignedChunks rank L W i hW hrank,
          fun i hi r hr => ?_⟩
  rw [mem_assignedChunks r L W i hW hr]
  constructor
  · rintro ⟨_, rfl⟩
    rfl
  · rintro rfl
    exact ⟨hi, rfl⟩

/-- Witness for C5: four boundary timestamps (three chunks) split across
two workers; rank 1 gets exactly chunk index 1, in sorted order, and each
chunk index is owned by the worker matching its index parity. -/
theorem round_robin_partition_witness :
    ((assignedChunks 1 4 2).Sorted (fun a b => a < b)
      ∧ (∀ i, i ∈ assignedChunks 1 4 2 ↔ i < 4 - 1 ∧ i % 2 = 1)
      ∧ (∀ i, i < 4 - 1 → ∀ r, r < 2 → (i ∈ assignedChunks r 4 2 ↔ r = i % 2)))
    ∧ assignedChunks 1 4 2 = [1] ∧ assignedChunks 0 4 2 = [0, 2] := by
  refine ⟨round_robin_partition 4 2 1 (by decide) (by decide), by decide, by decide⟩

theorem processChunkAux_all_complete (ncomp : ℕ) :
    ∀ (l : List AcqChannel) (t : Option String),
      (∀ c ∈ l, c.numRecords = ncomp) →
      processChunkAux ncomp t l = ⟨0, [], false⟩ := by
  intro l
  induction l with
  | nil =>
    intro t h
    rfl
  | cons c rest ih =>
    intro t h
    have hc : chanOutcome ncomp c = .skippedComplete := by
      simp [chanOutcome, h c (List.mem_cons_self c rest)]
    simp only [processChunkAux, hc]
    exact ih t (fun x hx => h x (List.mem_cons_of_mem c hx))

/-- C1: for a chunk whose data is already fully present in the Raw Data
Store (the scanned per-station tag count `numRecords` equals the expected
channel count `ncomp` for every station), rerunning the acquisition loop
over that chunk performs zero remote calls: every station hits the
`num_records[ista] == ncomp: continue` guard before `get_stations` or
`get_waveforms` is reached, and nothing new is persisted. -/
theorem acquisition_idempotent (ncomp : ℕ) (stations : List AcqChannel)
    (h : ∀ c ∈ stations, c.numRecords = ncomp) :
    processChunk ncomp stations = ⟨0, [], false⟩ :=
  processChunkAux_all_complete ncomp stations none h

/-- Witness for C1: a fully populated three-component chunk is skipped with
zero remote calls, whatever the remote collaborators would do. -/
theorem acquisition_idempotent_witness :
    processChunk 3 [⟨"BHE", "*", 3, true, true, [7]⟩, ⟨"BHZ", "00", 3, false, false, []⟩]
      = ⟨0, [], false⟩ :=
  acquisition_idempotent 3 _ (by decide)

theorem chanOutcome_good (ncomp : ℕ) (c : AcqChannel) (h : goodChannel ncomp c) :
    chanOutcome ncomp c = .persisted (newTag c.chan c.location) := by
  obtain ⟨h1, h2, h3, h4⟩ := h
  have h5 : c.preprocessed.isEmpty = false := by
    cases hp : c.preprocessed with
    | nil => exact absurd hp h4
    | cons a l => rfl
  simp [chanOutcome, h1, h2, h3, h5]

theorem processChunkAux_all_good (ncomp : ℕ) :
    ∀ (l : List AcqChannel) (t : Option String),
      (∀ c ∈ l, goodChannel ncomp c) →
      processChunkAux ncomp t l =
        ⟨2 * l.length, l.map (fun c => newTag c.chan c.location), false⟩ := by
  intro l
  induction l with
  | nil =>
    intro t h
    rfl
  | cons c rest ih =>
    intro t h
    have hc := chanOutcome_good ncomp c (h c (List.mem_cons_self c rest))
    simp only [processChunkAux, hc]
    rw [ih (some (newTag c.chan c.location)) (fun x hx => h x (List.mem_cons_of_mem c hx))]
    simp only [ChunkResult.mk.injEq, List.map_cons, List.length_cons, and_true, true_and]
    omega

theorem processChunkAux_one_bad (ncomp : ℕ) (bad : AcqChannel)
    (hb1 : bad.numRecords ≠ ncomp) (hb2 : bad.invOk = true) (hb3 : bad.wfOk = false) :
    ∀ (pre post : List AcqChannel) (t : Option String),
      (∀ c ∈ pre ++ post, goodChannel ncomp c) →
      processChunkAux ncomp t (pre ++ bad :: post) =
        ⟨2 * (pre.length + post.length) + 2,
         (pre ++ post).map (fun c => newTag c.chan c.location), false⟩ := by
  intro pre
  induction pre with
  | nil =>
    intro post t h
    have hc : chanOutcome ncomp bad = .fetchFailed := by
      simp [chanOutcome, hb1, hb2, hb3]
    simp only [List.nil_append, processChunkAux, hc]
    rw [processChunkAux_all_good ncomp post t (by simpa using h)]
    simp only [ChunkResult.mk.injEq, List.length_nil, and_true, true_and]
    omega
  | cons c pre2 ih =>
    intro post t h
    have hcg : goodChannel ncomp c := h c (by simp)
    have hc := chanOutcome_good ncomp c hcg
    simp only [List.cons_append, processChunkAux, hc, List.append_eq]
    rw [ih post (some (newTag c.chan c.location))
        (fun x hx => h x (by rw [List.cons_append]; exact List.mem_cons_of_mem c hx))]
    simp only [ChunkResult.mk.injEq, List.map_cons, List.length_cons,
      List.cons_append, List.map_append, and_true, true_and]
    omega

/-- C4: when the remote waveform fetch of exactly one channel fails
(`get_waveforms` raises, caught by the per-channel `except ... continue`)
and every other not-yet-complete channel fetches and preprocesses
successfully with non-empty data, all the other channels are still
persisted, in roster order, the failed channel is left absent, and the
chunk loop completes without a fatal error. -/
theorem single_fetch_failure_isolated (ncomp : ℕ) (pre post : List AcqChannel)
    (bad : AcqChannel)
    (hgood : ∀ c ∈ pre ++ post, goodChannel ncomp c)
    (hb1 : bad.numRecords ≠ ncomp) (hb2 : bad.invOk = true) (hb3 : bad.wfOk = false) :
    processChunk ncomp (pre ++ bad :: post) =
      ⟨2 * (pre.length + post.length) + 2,
       (pre ++ post).map (fun c => newTag c.chan c.location), false⟩ :=
  processChunkAux_one_bad ncomp bad hb1 hb2 hb3 pre post none hgood

/-- Witness for C4: of three channels, the waveform fetch of the middle one
fails; the other two are persisted under their tags and the loop finishes
without a fatal error. -/
theorem single_fetch_failure_isolated_witness :
    processChunk 3 [⟨"BHE", "*", 0, true, true, [1]⟩,
                    ⟨"BHN", "*", 0, true, false, []⟩,
                    ⟨"BHZ", "*", 0, true, true, [2]⟩] =
      ⟨6, ["bhe_00", "bhz_00"], false⟩ := by
  have h := single_fetch_failure_isolated 3 [⟨"BHE", "*", 0, true, true, [1]⟩]
      [⟨"BHZ", "*", 0, true, true, [2]⟩] ⟨"BHN", "*", 0, true, false, []⟩
      (by decide) (by decide) (by decide) (by decide)
  exact h.trans (by decide)

/-- C7: the claim that an empty preprocessing result is never treated as a
failure is violated by the code: `print(ds,new_tags)` at line 306 sits
outside `if len(tr):`, so when the first channel to reach it has an empty
result, the function-local `new_tags` is still unbound and the statement
raises `UnboundLocalError`, aborting the chunk — here even the following
healthy channel is never fetched or persisted. -/
theorem empty_result_unbound_tag_crash :
    processChunk 3 [⟨"BHE", "*", 0, true, true, []⟩, ⟨"BHN", "*", 0, true, true, [1]⟩]
      = ⟨2, [], true⟩ := by
  decide

/-- C6: for every valid range (`start < end`) and positive increment the
planner returns an ordered boundary list of length
`floor((end-start)/increment) + 1`, strictly increasing, beginning at
`start`, whose consecutive boundaries differ by exactly the increment (so
the chunks they delimit tile the range with no gaps or overlaps); for
increment ≤ 0 or `start ≥ end` it fails with `ConfigError`. -/
theorem time_chunk_planner_contract (start endT inc : ℚ) :
    ((inc ≤ 0 ∨ endT ≤ start) → get_event_list start endT inc = .error .invalidRange)
    ∧ (0 < inc → start < endT →
        ∃ l, get_event_list start endT inc = .ok l
          ∧ (l.length : ℤ) = ⌊(endT - start) / inc⌋ + 1
          ∧ l.Sorted (fun a b => a < b)
          ∧ l.head? = some start
          ∧ ∀ i : ℕ, ∀ h : i + 1 < l.length,
              l.get ⟨i + 1, h⟩ = l.get ⟨i, by omega⟩ + inc) := by
  constructor
  · intro h
    unfold get_event_list
    rw [if_pos h]
  · intro hinc hlt
    have hcond : ¬(inc ≤ 0 ∨ endT ≤ start) := by
      push_neg
      exact ⟨hinc, hlt⟩
    refine ⟨chunkBoundaries start inc (⌊(endT - start) / inc⌋.toNat + 1), ?_, ?_, ?_, ?_, ?_⟩
    · unfold get_event_list
      rw [if_neg hcond]
    · rw [chunkBoundaries, List.length_map, List.length_range]
      have h0 : 0 ≤ ⌊(endT - start) / inc⌋ :=
        Int.floor_nonneg.mpr (div_nonneg (by linarith) (le_of_lt hinc))
      omega
    · refine List.Pairwise.map _ ?_ (List.pairwise_lt_range _)
      intro a b hab
      have hcast : (a : ℚ) < (b : ℚ) := by exact_mod_cast hab
      have := mul_lt_mul_of_pos_right hcast hinc
      linarith
    · rw [chunkBoundaries, List.range_succ_eq_map]
      simp
    · intro i h
      simp only [chunkBoundaries, List.get_eq_getElem, List.getElem_map, List.getElem_range]
      push_cast
      ring

/-- Witness for C6: over the range [0, 2] with increment 1 the planner
produces three strictly increasing boundaries starting at 0 and stepping by
1, and with increment 0 it fails with `ConfigError`. -/
theorem time_chunk_planner_contract_witness :
    (get_event_list 0 2 0 = .error .invalidRange)
    ∧ (∃ l, get_event_list 0 2 1 = .ok l
        ∧ (l.length : ℤ) = ⌊((2 : ℚ) - 0) / 1⌋ + 1
        ∧ l.Sorted (fun a b => a < b)
        ∧ l.head? = some 0
        ∧ ∀ i : ℕ, ∀ h : i + 1 < l.length,
            l.get ⟨i + 1, h⟩ = l.get ⟨i, by omega⟩ + 1) :=
  ⟨(time_chunk_planner_contract 0 2 0).1 (Or.inl le_rfl),
   (time_chunk_planner_contract 0 2 1).2 (by norm_num) (by norm_num)⟩

end NoisePy
